import Mathlib

/-!
Shallow embedding of the FinTrack / Portfolio-Tracker dashboard client.

The repository ships two client variants:
* `src/frontend/src/App.js` — embedded below under namespace `AppV1`
  (no financial-statement view; `getPriceChange` guards on
  `info.currentPrice` and `info.dayHigh`);
* the client embedded in `src/README.md` — namespace `AppV2`
  (adds `FinancialTable`, `Financials`, `handleCustomSubmit`,
  `showFinancials`).

JavaScript numbers are modelled as `ℚ`; absent (`undefined`/`null`)
fields as `Option`; JavaScript objects whose keys carry data as
association lists in insertion order (object keys are unique).
-/

/-- Truthiness of an optional JavaScript number: `undefined`/`null` and `0`
are falsy, every other numeric value is truthy (`NaN` is not modelled:
all values arriving from the JSON API are finite numbers). -/
def jsTruthyOpt : Option ℚ → Bool
  | none => false
  | some x => !(x == 0)

/-- Model of `String.prototype.toUpperCase` restricted to the characters
the app actually handles, as the per-character upper-casing map. -/
def jsToUpper (s : String) : String := ⟨s.toList.map Char.toUpper⟩

/-- Model of `String.prototype.toLowerCase`, per-character lower-casing. -/
def jsToLower (s : String) : String := ⟨s.toList.map Char.toLower⟩

/-- Lexicographic comparison of character lists: the order the default
JavaScript `Array.prototype.sort()` comparator induces on strings
(code-unit comparison; code points coincide for the app's date keys). -/
def charLe : List Char → List Char → Bool
  | [], _ => true
  | _ :: _, [] => false
  | a :: as, b :: bs => if a < b then true else if b < a then false else charLe as bs

/-- The string order used by the default JavaScript sort. -/
def jsStrLe (a b : String) : Prop := charLe a.toList b.toList = true

instance : DecidableRel jsStrLe := fun a b =>
  inferInstanceAs (Decidable (charLe a.toList b.toList = true))

/-- Model of `Array.prototype.sort()` on an array of strings (default
comparator, ascending). -/
def jsSortAsc (l : List String) : List String := List.insertionSort jsStrLe l

/-- Model of `a.includes(b)` on the underlying character lists:
`containsSub needle hay` decides whether `needle` occurs contiguously
inside `hay`. -/
def containsSub (needle : List Char) : List Char → Bool
  | [] => needle.isEmpty
  | c :: t => needle.isPrefixOf (c :: t) || containsSub needle t

/-- `String.prototype.includes`: `jsIncludes hay needle` is `hay.includes(needle)`. -/
def jsIncludes (hay needle : String) : Bool := containsSub needle.toList hay.toList

/-- An entry of the `/api/stocks` list: `{ label, value }`. -/
structure Stock where
  label : String
  value : String
  deriving DecidableEq, Repr

/-- One OHLCV record of the fetched history; only the fields the modelled
computations read are kept. -/
structure HistoryPoint where
  date : String
  close : ℚ
  volume : Option ℚ
  deriving DecidableEq, Repr

/-- The quote-snapshot object `stockData.info`; every field is optional,
as the provider may omit any of them. -/
structure Info where
  currentPrice : Option ℚ
  dayHigh : Option ℚ
  dayLow : Option ℚ
  deriving DecidableEq, Repr

/-- The composite `stockData` object returned by `/api/stock/{symbol}`. -/
structure StockData where
  info : Option Info
  history : List HistoryPoint
  deriving DecidableEq, Repr

/-- Possible results of the JavaScript `getPriceChange` functions:
`null`, a bare number (variant 1 returns `0` for short histories),
a `{ change, percent }` record, or a thrown `TypeError` (reading a
property of `undefined`). -/
inductive PriceChangeResult where
  | nullR : PriceChangeResult
  | numR : ℚ → PriceChangeResult
  | changeR : ℚ → ℚ → PriceChangeResult
  | errorR : PriceChangeResult
  deriving DecidableEq, Repr

namespace AppV1

/-- `getPriceChange` of `src/frontend/src/App.js` (lines 177-195):
returns `null` when `stockData` is absent or `info.currentPrice` or
`info.dayHigh` is falsy; returns `0` when the history has fewer than two
points; otherwise returns the change from the first to the last history
close and its percentage. Reading `.currentPrice` on an absent `info`
throws, modelled as `errorR`. -/
def getPriceChange (stockData : Option StockData) : PriceChangeResult :=
  match stockData with
  | none => .nullR
  | some d =>
    match d.info with
    | none => .errorR
    | some i =>
      if !(jsTruthyOpt i.currentPrice) || !(jsTruthyOpt i.dayHigh) then .nullR
      else if d.history.length < 2 then .numR 0
      else
        match d.history.head?, d.history.getLast? with
        | some f, some l =>
          .changeR (l.close - f.close) ((l.close - f.close) / f.close * 100)
        | _, _ => .errorR

end AppV1

namespace AppV2

/-- `getPriceChange` of the README client (lines 328-337): returns `null`
when `stockData` or `stockData.info` is absent or the history has fewer
than two points; otherwise the change from the first to the last history
close and its percentage. -/
def getPriceChange (stockData : Option StockData) : PriceChangeResult :=
  match stockData with
  | none => .nullR
  | some d =>
    match d.info with
    | none => .nullR
    | some _ =>
      if d.history.length < 2 then .nullR
      else
        match d.history.head?, d.history.getLast? with
        | some f, some l =>
          .changeR (l.close - f.close) ((l.close - f.close) / f.close * 100)
        | _, _ => .errorR

end AppV2

/-- The CSS class of the price-change badge: rendered only when
`priceChange` is truthy; `'positive'` when `priceChange.change >= 0`,
else `'negative'`. A truthy bare number would read `.change` as
`undefined`, and `undefined >= 0` is `false`, hence `'negative'`;
only `0` (falsy, no badge) actually occurs. -/
def priceChangeBadgeClass : PriceChangeResult → Option String
  | .nullR => none
  | .numR n => if n = 0 then none else some "price-change negative"
  | .changeR c _ => some (if 0 ≤ c then "price-change positive" else "price-change negative")
  | .errorR => none

/-- The text inside a `StatCard`'s value div (`App.js` lines 125-132 and
README lines 171-178): `value ? prefix + value.toLocaleString() : '-'`,
with `toLocaleString` abstracted as `fmt`. The source's `prefix` argument
is named `pfx` here. -/
def statCardText (fmt : ℚ → String) (pfx : String) : Option ℚ → String
  | none => "-"
  | some v => if v = 0 then "-" else pfx ++ fmt v

/-- The text of one `FinancialTable` body cell (README line 210):
`data[row][date] ? data[row][date].toLocaleString() : '-'`. -/
def cellText (fmt : ℚ → String) : Option ℚ → String
  | none => "-"
  | some v => if v = 0 then "-" else fmt v

/-- One line item of a financial statement: the row name and its
date-keyed cells, in object-key insertion order. -/
structure FinRow where
  name : String
  cells : List (String × ℚ)
  deriving DecidableEq, Repr

/-- `data[row][date]`: look a date up in a row's cells. -/
def lookupCell (cells : List (String × ℚ)) (date : String) : Option ℚ :=
  List.lookup date cells

/-- `availableDates` of `FinancialTable` (README line 191): the keys of
the FIRST row object, sorted with the default comparator and reversed. -/
def availableDates (data : List FinRow) : List String :=
  match data with
  | [] => []
  | r :: _ => (jsSortAsc (r.cells.map Prod.fst)).reverse

/-- The distinct period-end dates found across ALL rows of a statement
(what the spec sentence describes; not what the code computes). -/
def allStatementDates (data : List FinRow) : List String :=
  ((data.map fun r => r.cells.map Prod.fst).flatten).dedup

/-- The rendered `tbody` of `FinancialTable` (README lines 204-215): one
entry per row key, each with one rendered cell per column of
`availableDates`. -/
def tableBody (fmt : ℚ → String) (data : List FinRow) : List (String × List String) :=
  data.map fun r =>
    (r.name, (availableDates data).map fun d => cellText fmt (lookupCell r.cells d))

/-- The rendered table: header date columns and body rows. -/
structure RenderedTable where
  headerDates : List String
  body : List (String × List String)
  deriving DecidableEq, Repr

/-- `FinancialTable` (README lines 180-219): `none` models the
"No Data Available" branch for an absent or empty `data` object;
otherwise the header holds `availableDates` and the body one row per
line-item key. -/
def FinancialTable (fmt : ℚ → String) (data : List FinRow) : Option RenderedTable :=
  if data.isEmpty then none
  else some ⟨availableDates data, tableBody fmt data⟩

/-- A quote+history request the fetch effect issues:
`/api/stock/{symbol}?period={period}`. -/
structure FetchRequest where
  symbol : String
  period : String
  deriving DecidableEq, Repr

/-- The README client's `App` state (lines 274-281). -/
structure AppState where
  stocks : List Stock
  selectedStock : Option Stock
  customStock : String
  searchTerm : String
  period : String
  loading : Bool
  showFinancials : Bool
  deriving DecidableEq, Repr

/-- The effect that runs whenever `selectedStock` or `period` changes
(README lines 296-311): if no stock is selected it does nothing;
otherwise it sets `loading`, resets `showFinancials` to `false` and
issues the quote+history fetch for the selected symbol and period. -/
def fetchEffect (s : AppState) : AppState × Option FetchRequest :=
  match s.selectedStock with
  | none => (s, none)
  | some st =>
    ({ s with loading := true, showFinancials := false },
     some ⟨st.value, s.period⟩)

/-- `handleCustomSubmit` (README lines 313-320): on a truthy (non-empty)
`customStock`, select the upper-cased text as both label and value and
clear the search term. -/
def handleCustomSubmit (s : AppState) : AppState :=
  if s.customStock.isEmpty then s
  else
    let symbol := jsToUpper s.customStock
    { s with selectedStock := some ⟨symbol, symbol⟩, searchTerm := "" }

/-- `filteredStocks` (App.js lines 171-174, README lines 322-325): keep
the stocks whose label or value contains the search term
case-insensitively. -/
def filteredStocks (stocks : List Stock) (searchTerm : String) : List Stock :=
  stocks.filter fun s =>
    jsIncludes (jsToLower s.label) (jsToLower searchTerm) ||
    jsIncludes (jsToLower s.value) (jsToLower searchTerm)

/-- Concrete `toLocaleString` stand-in used by concrete witnesses. -/
def fmtEx : ℚ → String := fun _ => "N"

/-- A two-row statement whose rows carry different period-end dates. -/
def exStatement : List FinRow :=
  [⟨"Total Revenue", [("2020-03-31", 100)]⟩,
   ⟨"Net Income", [("2021-03-31", 50)]⟩]

/-- A one-row statement with two period-end dates, for sort-order witnesses. -/
def exStatement2 : List FinRow :=
  [⟨"Total Revenue", [("2020-03-31", 100), ("2021-03-31", 120)]⟩]

/-- A concrete chronological valuation of the two dates of `exStatement2`. -/
def dvEx : String → ℕ := fun s => if s = "2021-03-31" then 1 else 0

/-- A concrete two-point history (closes 10 then 15). -/
def exHist : List HistoryPoint :=
  [⟨"2024-01-02", 10, some 1000⟩, ⟨"2024-12-31", 15, some 900⟩]

/-- A concrete quote snapshot with all fields present. -/
def exInfo : Info := ⟨some 12, some 16, some 9⟩

/-- A concrete quote snapshot lacking `currentPrice`. -/
def exInfoNoPrice : Info := ⟨none, some 16, some 9⟩

/-- A concrete app state with a selected stock and a pending custom entry. -/
def exState : AppState :=
  { stocks := [⟨"Reliance", "RELIANCE.NS"⟩, ⟨"Tata Steel", "TATASTEEL.NS"⟩]
    selectedStock := some ⟨"Reliance", "RELIANCE.NS"⟩
    customStock := "tata.ns"
    searchTerm := "rel"
    period := "1y"
    loading := false
    showFinancials := true }

/-! ### Helper lemmas -/

theorem charLe_total : ∀ a b, charLe a b = true ∨ charLe b a = true
  | [], _ => Or.inl rfl
  | _ :: _, [] => Or.inr rfl
  | a :: as, b :: bs => by
    simp only [charLe]
    rcases lt_trichotomy a b with h | h | h
    · left; simp [h]
    · subst h
      simp only [lt_irrefl, if_false]
      exact charLe_total as bs
    · right; simp [h, lt_asymm h]

theorem charLe_trans : ∀ a b c, charLe a b = true → charLe b c = true → charLe a c = true
  | [], _, _, _, _ => rfl
  | _ :: _, [], _, hab, _ => by simp [charLe] at hab
  | _ :: _, _ :: _, [], _, hbc => by simp [charLe] at hbc
  | a :: as, b :: bs, c :: cs, hab, hbc => by
    simp only [charLe] at hab hbc ⊢
    rcases lt_trichotomy a b with h1 | h1 | h1
    · rcases lt_trichotomy b c with h2 | h2 | h2
      · simp [lt_trans h1 h2]
      · subst h2; simp [h1]
      · rw [if_neg (lt_asymm h2), if_pos h2] at hbc
        exact absurd hbc (by simp)
    · subst h1
      rw [if_neg (lt_irrefl a), if_neg (lt_irrefl a)] at hab
      rcases lt_trichotomy a c with h2 | h2 | h2
      · simp [h2]
      · subst h2
        rw [if_neg (lt_irrefl a), if_neg (lt_irrefl a)] at hbc ⊢
        exact charLe_trans as bs cs hab hbc
      · rw [if_neg (lt_asymm h2), if_pos h2] at hbc
        exact absurd hbc (by simp)
    · rw [if_neg (lt_asymm h1), if_pos h1] at hab
      exact absurd hab (by simp)

instance : IsTotal String jsStrLe :=
  ⟨fun a b => charLe_total a.toList b.toList⟩

instance : IsTrans String jsStrLe :=
  ⟨fun a b c => charLe_trans a.toList b.toList c.toList⟩

theorem isPrefixOf_iff_append : ∀ (n h : List Char), n.isPrefixOf h = true ↔ ∃ t, n ++ t = h
  | [], h => by simp [List.isPrefixOf]
  | a :: as, [] => by simp [List.isPrefixOf]
  | a :: as, b :: bs => by
    simp only [List.isPrefixOf, Bool.and_eq_true, beq_iff_eq,
      isPrefixOf_iff_append as bs, List.cons_append]
    constructor
    · rintro ⟨rfl, t, rfl⟩
      exact ⟨t, rfl⟩
    · rintro ⟨t, ht⟩
      injection ht with h1 h2
      exact ⟨h1, t, h2⟩

theorem containsSub_nil : ∀ h : List Char, containsSub [] h = true
  | [] => rfl
  | _ :: t => by simp [containsSub, List.isPrefixOf]

theorem containsSub_iff :
    ∀ (h n : List Char), containsSub n h = true ↔ ∃ pre post, pre ++ (n ++ post) = h
  | [], n => by
    simp only [containsSub, List.isEmpty_iff]
    constructor
    · rintro rfl
      exact ⟨[], [], rfl⟩
    · rintro ⟨pre, post, hp⟩
      rcases List.append_eq_nil.mp hp with ⟨rfl, h2⟩
      exact (List.append_eq_nil.mp h2).1
  | c :: t, n => by
    simp only [containsSub, Bool.or_eq_true, isPrefixOf_iff_append, containsSub_iff t n]
    constructor
    · rintro (⟨post, hp⟩ | ⟨pre, post, hp⟩)
      · exact ⟨[], post, by simpa using hp⟩
      · exact ⟨c :: pre, post, by simp [hp]⟩
    · rintro ⟨pre, post, hp⟩
      rcases pre with _ | ⟨x, pre⟩
      · exact Or.inl ⟨post, by simpa using hp⟩
      · injection hp with h1 h2
        subst h1
        exact Or.inr ⟨pre, post, h2⟩

/-! ### Claim theorems -/

/-- C2: for every fetched stock whose history has at least two points,
both variants' `getPriceChange` (when they produce a change at all —
variant 1 additionally requires truthy `currentPrice` and `dayHigh`)
return change = last close − first close and
percent = change / first close × 100. -/
theorem getPriceChange_formula (i : Info) (h : List HistoryPoint)
    (f l : HistoryPoint) (hf : h.head? = some f) (hl : h.getLast? = some l)
    (hlen : 2 ≤ h.length) :
    AppV2.getPriceChange (some ⟨some i, h⟩) =
      .changeR (l.close - f.close) ((l.close - f.close) / f.close * 100) ∧
    (jsTruthyOpt i.currentPrice = true → jsTruthyOpt i.dayHigh = true →
      AppV1.getPriceChange (some ⟨some i, h⟩) =
        .changeR (l.close - f.close) ((l.close - f.close) / f.close * 100)) := by
  have hnot : ¬ h.length < 2 := by omega
  constructor
  · simp [AppV2.getPriceChange, hnot, hf, hl]
  · intro h1 h2
    simp [AppV1.getPriceChange, h1, h2, hnot, hf, hl]

/-- Witness for C2 on a concrete two-point history (10 → 15). -/
theorem getPriceChange_formula_witness :
    AppV2.getPriceChange (some ⟨some exInfo, exHist⟩) =
      .changeR ((15 : ℚ) - 10) (((15 : ℚ) - 10) / 10 * 100) ∧
    AppV1.getPriceChange (some ⟨some exInfo, exHist⟩) =
      .changeR ((15 : ℚ) - 10) (((15 : ℚ) - 10) / 10 * 100) := by
  have h := getPriceChange_formula exInfo exHist
    ⟨"2024-01-02", 10, some 1000⟩ ⟨"2024-12-31", 15, some 900⟩ rfl rfl
    (by norm_num [exHist])
  exact ⟨h.1, h.2 rfl rfl⟩

/-- C3: for a two-point-or-longer history, both variants return a change
record whose sign equals the sign of (last close − first close), and the
badge styling is positive exactly when the last close is at least the
first close. -/
theorem priceChange_sign_matches (i : Info) (h : List HistoryPoint)
    (f l : HistoryPoint) (hf : h.head? = some f) (hl : h.getLast? = some l)
    (hlen : 2 ≤ h.length) :
    ∃ c p, AppV2.getPriceChange (some ⟨some i, h⟩) = .changeR c p ∧
      (jsTruthyOpt i.currentPrice = true → jsTruthyOpt i.dayHigh = true →
        AppV1.getPriceChange (some ⟨some i, h⟩) = .changeR c p) ∧
      (0 < c ↔ f.close < l.close) ∧
      (c < 0 ↔ l.close < f.close) ∧
      (c = 0 ↔ l.close = f.close) ∧
      priceChangeBadgeClass (.changeR c p) =
        some (if f.close ≤ l.close then "price-change positive"
              else "price-change negative") := by
  have hnot : ¬ h.length < 2 := by omega
  refine ⟨l.close - f.close, (l.close - f.close) / f.close * 100,
    ?_, ?_, ?_, ?_, ?_, ?_⟩
  · simp [AppV2.getPriceChange, hnot, hf, hl]
  · intro h1 h2
    simp [AppV1.getPriceChange, h1, h2, hnot, hf, hl]
  · exact sub_pos
  · exact sub_neg
  · exact sub_eq_zero
  · simp [priceChangeBadgeClass, sub_nonneg]

/-- Witness for C3: on the concrete rising history the badge is positive. -/
theorem priceChange_sign_matches_witness :
    priceChangeBadgeClass (AppV2.getPriceChange (some ⟨some exInfo, exHist⟩)) =
      some "price-change positive" := by
  obtain ⟨c, p, h1, _, _, _, _, h6⟩ := priceChange_sign_matches exInfo exHist
    ⟨"2024-01-02", 10, some 1000⟩ ⟨"2024-12-31", 15, some 900⟩ rfl rfl
    (by norm_num [exHist])
  rw [h1, h6]
  norm_num

/-- C8: in the first client variant, `getPriceChange` returns `null`
whenever `info.currentPrice` or `info.dayHigh` is absent — whatever the
history is — so no price-change badge is rendered. -/
theorem getPriceChangeV1_null_on_missing_fields (i : Info) (h : List HistoryPoint)
    (hmiss : i.currentPrice = none ∨ i.dayHigh = none) :
    AppV1.getPriceChange (some ⟨some i, h⟩) = .nullR ∧
    priceChangeBadgeClass (AppV1.getPriceChange (some ⟨some i, h⟩)) = none := by
  have hguard : (!(jsTruthyOpt i.currentPrice) || !(jsTruthyOpt i.dayHigh)) = true := by
    rcases hmiss with hm | hm <;> simp [jsTruthyOpt, hm]
  constructor
  · simp [AppV1.getPriceChange, hguard]
  · simp [AppV1.getPriceChange, hguard, priceChangeBadgeClass]

/-- Witness for C8: `currentPrice` absent with a two-point history. -/
theorem getPriceChangeV1_null_on_missing_fields_witness :
    AppV1.getPriceChange (some ⟨some exInfoNoPrice, exHist⟩) = .nullR ∧
    priceChangeBadgeClass (AppV1.getPriceChange (some ⟨some exInfoNoPrice, exHist⟩)) = none :=
  getPriceChangeV1_null_on_missing_fields exInfoNoPrice exHist (Or.inl rfl)

/-- C6: whenever the fetch effect runs with a selected stock (it runs on
every change of `selectedStock` or `period`), it issues the quote+history
request for that symbol and period and resets `showFinancials` to
`false`, clearing any previously shown financial statement. -/
theorem fetchEffect_resets_financials (s : AppState) (st : Stock)
    (hsel : s.selectedStock = some st) :
    (fetchEffect s).1.showFinancials = false ∧
    (fetchEffect s).1.loading = true ∧
    (fetchEffect s).2 = some ⟨st.value, s.period⟩ ∧
    (fetchEffect s).1.selectedStock = s.selectedStock ∧
    (fetchEffect s).1.period = s.period := by
  simp [fetchEffect, hsel]

/-- Witness for C6 on a concrete state with `showFinancials = true`. -/
theorem fetchEffect_resets_financials_witness :
    (fetchEffect exState).1.showFinancials = false ∧
    (fetchEffect exState).2 = some ⟨"RELIANCE.NS", "1y"⟩ := by
  have h := fetchEffect_resets_financials exState ⟨"Reliance", "RELIANCE.NS"⟩ rfl
  exact ⟨h.1, h.2.2.1⟩

/-- C7: submitting a non-empty custom symbol selects a stock whose label
and value both equal the upper-cased input, clears the search term, and
changes nothing else of the input text or state. -/
theorem handleCustomSubmit_uppercases (s : AppState)
    (hne : s.customStock.isEmpty = false) :
    (handleCustomSubmit s).selectedStock =
      some ⟨jsToUpper s.customStock, jsToUpper s.customStock⟩ ∧
    (handleCustomSubmit s).searchTerm = "" ∧
    (handleCustomSubmit s).period = s.period ∧
    (handleCustomSubmit s).stocks = s.stocks ∧
    (handleCustomSubmit s).customStock = s.customStock ∧
    (handleCustomSubmit s).showFinancials = s.showFinancials := by
  simp [handleCustomSubmit, hne]

/-- Witness for C7: submitting `"tata.ns"` selects
`{label := "TATA.NS", value := "TATA.NS"}`. -/
theorem handleCustomSubmit_uppercases_witness :
    (handleCustomSubmit exState).selectedStock = some ⟨"TATA.NS", "TATA.NS"⟩ ∧
    (handleCustomSubmit exState).searchTerm = "" := by
  have h := handleCustomSubmit_uppercases exState rfl
  refine ⟨?_, h.2.1⟩
  rw [h.1]
  decide

/-- C9: `StatCard` renders the placeholder for every falsy value, so a
genuine numeric `0` renders as `'-'` exactly like an absent field; a
financial-statement cell whose stored value is `0` likewise renders
`'-'`. -/
theorem statCard_zero_renders_dash (fmt : ℚ → String) (pfx : String) :
    statCardText fmt pfx none = "-" ∧
    statCardText fmt pfx (some 0) = "-" ∧
    (∀ v : Option ℚ, jsTruthyOpt v = false → statCardText fmt pfx v = "-") ∧
    jsTruthyOpt (some 0) = false ∧
    cellText fmt (some 0) = "-" ∧
    cellText fmt none = "-" := by
  refine ⟨rfl, by norm_num [statCardText], ?_, by norm_num [jsTruthyOpt],
    by norm_num [cellText], rfl⟩
  rintro (_ | v) hv
  · rfl
  · simp only [jsTruthyOpt, Bool.not_eq_false', beq_iff_eq] at hv
    simp [statCardText, hv]

/-- Witness for C9: a volume of `0` is rendered as `'-'`. -/
theorem statCard_zero_renders_dash_witness :
    statCardText fmtEx "₹" (some 0) = "-" :=
  (statCard_zero_renders_dash fmtEx "₹").2.2.1 (some 0) (by norm_num [jsTruthyOpt])

/-- C10: the sidebar list keeps exactly the stocks whose label or value
contains the search term case-insensitively (containment spelled out as
the existence of a contiguous occurrence), and filtering with the empty
term is the identity. -/
theorem filteredStocks_spec (stocks : List Stock) (t : String) (s : Stock) :
    filteredStocks stocks "" = stocks ∧
    (s ∈ filteredStocks stocks t ↔
      s ∈ stocks ∧
        (jsIncludes (jsToLower s.label) (jsToLower t) = true ∨
         jsIncludes (jsToLower s.value) (jsToLower t) = true)) ∧
    (jsIncludes (jsToLower s.label) (jsToLower t) = true ↔
      ∃ pre post, pre ++ ((jsToLower t).toList ++ post) = (jsToLower s.label).toList) := by
  refine ⟨?_, ?_, ?_⟩
  · exact List.filter_eq_self.mpr fun a _ => by
      simp [jsIncludes, jsToLower, containsSub_nil]
  · simp [filteredStocks, List.mem_filter]
  · exact containsSub_iff _ _

/-- Witness for C10 at a concrete list and term: the empty term keeps the
full list, and a match on the label is found case-insensitively. -/
theorem filteredStocks_spec_witness :
    filteredStocks exState.stocks "" = exState.stocks ∧
    ⟨"Tata Steel", "TATASTEEL.NS"⟩ ∈ filteredStocks exState.stocks "tata" := by
  refine ⟨(filteredStocks_spec exState.stocks "" ⟨"", ""⟩).1, ?_⟩
  exact (filteredStocks_spec exState.stocks "tata" ⟨"Tata Steel", "TATASTEEL.NS"⟩).2.1.mpr
    ⟨by decide, Or.inl (by decide)⟩

/-- C1 counterexample: in `exStatement` the second row carries period-end
date `2021-03-31`, which is absent from the first row; the rendered
header has a column only for the first row's date, so the table does NOT
have one column per distinct date found across all rows. -/
theorem financialTable_misses_second_row_date :
    "2021-03-31" ∈ allStatementDates exStatement ∧
    "2021-03-31" ∉ availableDates exStatement ∧
    (FinancialTable fmtEx exStatement).map RenderedTable.headerDates =
      some (availableDates exStatement) ∧
    availableDates exStatement = ["2020-03-31"] := by
  exact ⟨by decide, by decide, rfl, by decide⟩

/-- C1 (amended): the rendered table has one body row per line-item key,
and one date column per distinct period-end date of the FIRST row (a
permutation of the first row's keys, without duplicates when the first
row's keys have none); only when every row carries the same set of date
keys do the columns cover the distinct dates of all rows. -/
theorem financialTable_shape (fmt : ℚ → String) (r : FinRow) (rest : List FinRow) :
    (FinancialTable fmt (r :: rest)).map RenderedTable.headerDates =
      some (availableDates (r :: rest)) ∧
    (FinancialTable fmt (r :: rest)).map (fun tb => tb.body.map Prod.fst) =
      some ((r :: rest).map FinRow.name) ∧
    (availableDates (r :: rest)).Perm (r.cells.map Prod.fst) ∧
    ((r.cells.map Prod.fst).Nodup → (availableDates (r :: rest)).Nodup) ∧
    ((∀ row ∈ r :: rest, ∀ d, d ∈ row.cells.map Prod.fst ↔ d ∈ r.cells.map Prod.fst) →
      ∀ d, (d ∈ availableDates (r :: rest) ↔ d ∈ allStatementDates (r :: rest))) := by
  have hperm : (availableDates (r :: rest)).Perm (r.cells.map Prod.fst) :=
    (List.reverse_perm _).trans (List.perm_insertionSort _ _)
  refine ⟨rfl, ?_, hperm, fun hn => hperm.symm.nodup hn, ?_⟩
  · simp [FinancialTable, tableBody]
  · intro huni d
    rw [hperm.mem_iff]
    simp only [allStatementDates, List.mem_dedup, List.mem_flatten]
    constructor
    · intro hd
      exact ⟨r.cells.map Prod.fst,
        List.mem_map_of_mem _ (List.mem_cons_self r rest), hd⟩
    · rintro ⟨l, hl, hd⟩
      obtain ⟨row, hrow, rfl⟩ := List.mem_map.mp hl
      exact (huni row hrow d).mp hd

/-- Witness for C1 (amended) on `exStatement`: the header dates are a
duplicate-free permutation of the first row's keys. -/
theorem financialTable_shape_witness :
    (availableDates exStatement).Nodup ∧
    (availableDates exStatement).Perm
      ((⟨"Total Revenue", [("2020-03-31", 100)]⟩ : FinRow).cells.map Prod.fst) := by
  have h := financialTable_shape fmtEx ⟨"Total Revenue", [("2020-03-31", 100)]⟩
    [⟨"Net Income", [("2021-03-31", 50)]⟩]
  exact ⟨h.2.2.2.1 (by decide), h.2.2.1⟩

/-- C4: every rendered row has exactly one cell per rendered date column
(no cell is omitted), the body contains the rendered row of every line
item, and a cell whose (row, date) pair has no stored value renders as
the placeholder. -/
theorem financialTable_missing_cells_dash (fmt : ℚ → String)
    (r0 : FinRow) (rest : List FinRow) :
    FinancialTable fmt (r0 :: rest) =
      some ⟨availableDates (r0 :: rest), tableBody fmt (r0 :: rest)⟩ ∧
    (∀ p ∈ tableBody fmt (r0 :: rest),
      p.2.length = (availableDates (r0 :: rest)).length) ∧
    (∀ r ∈ r0 :: rest,
      (r.name, (availableDates (r0 :: rest)).map fun d => cellText fmt (lookupCell r.cells d))
        ∈ tableBody fmt (r0 :: rest)) ∧
    (∀ (r : FinRow) (d : String), lookupCell r.cells d = none →
      cellText fmt (lookupCell r.cells d) = "-") := by
  refine ⟨rfl, ?_, ?_, ?_⟩
  · rintro p hp
    simp only [tableBody, List.mem_map] at hp
    obtain ⟨r, _, rfl⟩ := hp
    simp
  · intro r hr
    simp only [tableBody, List.mem_map]
    exact ⟨r, hr, rfl⟩
  · intro r d hd
    rw [hd]
    rfl

/-- Witness for C4: the `Net Income` row of `exStatement` has no value
for the rendered column `2020-03-31`, and that cell renders `'-'`. -/
theorem financialTable_missing_cells_dash_witness :
    cellText fmtEx
      (lookupCell (⟨"Net Income", [("2021-03-31", 50)]⟩ : FinRow).cells "2020-03-31") = "-" :=
  (financialTable_missing_cells_dash fmtEx ⟨"Total Revenue", [("2020-03-31", 100)]⟩
    [⟨"Net Income", [("2021-03-31", 50)]⟩]).2.2.2
    ⟨"Net Income", [("2021-03-31", 50)]⟩ "2020-03-31" (by decide)

/-- C5: the rendered date columns are pairwise descending in the
JavaScript string order, hence in chronological order for any date
valuation that agrees with the string order on the rendered keys (as the
ISO-style period-end keys do). -/
theorem financialTable_dates_descending (fmt : ℚ → String) (r : FinRow)
    (rest : List FinRow) (dv : String → ℕ)
    (hmono : ∀ a ∈ availableDates (r :: rest), ∀ b ∈ availableDates (r :: rest),
      jsStrLe a b → dv a ≤ dv b) :
    (FinancialTable fmt (r :: rest)).map RenderedTable.headerDates =
      some (availableDates (r :: rest)) ∧
    (availableDates (r :: rest)).Pairwise (fun a b => jsStrLe b a) ∧
    (availableDates (r :: rest)).Pairwise (fun a b => dv b ≤ dv a) := by
  have hsorted : (availableDates (r :: rest)).Pairwise (fun a b => jsStrLe b a) := by
    exact List.pairwise_reverse.mpr (List.sorted_insertionSort jsStrLe _)
  refine ⟨rfl, hsorted, ?_⟩
  exact hsorted.imp_of_mem fun ha hb hab => hmono _ hb _ ha hab

/-- Witness for C5: the two columns of `exStatement2` are rendered newest
first, both in string order and under the concrete valuation `dvEx`. -/
theorem financialTable_dates_descending_witness :
    (availableDates exStatement2).Pairwise (fun a b => dvEx b ≤ dvEx a) :=
  (financialTable_dates_descending fmtEx
    ⟨"Total Revenue", [("2020-03-31", 100), ("2021-03-31", 120)]⟩ [] dvEx
    (by decide)).2.2
